import Mathlib

/-
Verification of the aloha-chatbot data-preparation core against its
natural-language specification.

Shallow embedding of the Python sources:
  src/src/matrix_factorization.py  (MatrixWrapper, CharCluster)
  src/src/core.py                  (clean_line, DataManager)
  src/src/config.py                (MatrixTrainingConfig, ClusterConfig)

Conventions used throughout the embedding:
  - raw identifiers (character ids such as "l4390", show ids, sentence ids,
    feature strings) are embedded as natural numbers; only equality and
    membership of identifiers is ever used by the verified code;
  - pandas data frames are embedded as Lean lists of row structures, kept in
    frame order; .loc filtering is List.filter, .unique() is List.dedup;
  - Python dicts built from pairwise-distinct keys are embedded as
    association lists with List.lookup;
  - fallible Python code (raising KeyError / TypeError / AttributeError /
    AssertionError / IndexError) is embedded with Except PyError;
  - the trained implicit-ALS factor model is opaque in the source (the spec
    treats it as "fit a factor model; query nearest neighbours"), so the
    neighbour query MatrixWrapper.get_similar is embedded as an arbitrary
    function from an id and a result cap to a ranked list of
    (id, confidence) pairs, with the confidence type kept abstract;
  - floating point appears in the source only as similarity confidences
    (never inspected by the verified code), as the held-out precision
    (a ratio, embedded as a rational) and as math.log of a frequency
    (embedded symbolically, since no verified property inspects its value).
-/

namespace Aloha

/-- Python exception kinds raised by the embedded code paths. -/
inductive PyError where
  | keyError : PyError
  | typeError : PyError
  | attributeError : PyError
  | assertionError : PyError
  deriving DecidableEq, Repr

/-! ## Category Index (matrix_factorization.py, MatrixWrapper.__init__ lines 54-70)

pandas astype('category') assigns dense codes 0..n-1 to the distinct values
observed in a column, ordered by the natural order on the values.  The maps
m1 / m1_inv (object axis) and m2 / m2_inv (feature axis) are built as
  m1 = dict(enumerate(cat.cat.categories)); m1_inv = {r: i for i, r in m1.items()}
-/

/-- Distinct values of a column in code order: pandas categorical categories
are the deduplicated column values sorted ascending. -/
def categories (vals : List Nat) : List Nat :=
  List.insertionSort (· ≤ ·) vals.dedup

/-- dict(enumerate(l)) starting at index k: association list pairing each
list position with the value stored there. -/
def enum_from : Nat → List Nat → List (Nat × Nat)
  | _, [] => []
  | k, v :: vs => (k, v) :: enum_from (k + 1) vs

/-- The two columns a MatrixWrapper is built from (MatrixWrapper.__init__ takes
the dataset plus col1 = object column, col2 = feature column; only the column
values enter the category maps). -/
structure MatrixWrapper where
  col1_vals : List Nat
  col2_vals : List Nat
  deriving DecidableEq, Repr

/-- self.m1: forward object map, category code to raw id. -/
def MatrixWrapper.m1 (mw : MatrixWrapper) : List (Nat × Nat) :=
  enum_from 0 (categories mw.col1_vals)

/-- self.m1_inv: inverse object map, raw id to category code. -/
def MatrixWrapper.m1_inv (mw : MatrixWrapper) : List (Nat × Nat) :=
  mw.m1.map (fun p => (p.2, p.1))

/-- self.m2: forward feature map, category code to raw id. -/
def MatrixWrapper.m2 (mw : MatrixWrapper) : List (Nat × Nat) :=
  enum_from 0 (categories mw.col2_vals)

/-- self.m2_inv: inverse feature map, raw id to category code. -/
def MatrixWrapper.m2_inv (mw : MatrixWrapper) : List (Nat × Nat) :=
  mw.m2.map (fun p => (p.2, p.1))

/-- self.m1_count = len(self.m1). -/
def MatrixWrapper.m1_count (mw : MatrixWrapper) : Nat := mw.m1.length

/-- self.m2_count = len(self.m2). -/
def MatrixWrapper.m2_count (mw : MatrixWrapper) : Nat := mw.m2.length

/-- Number of keys of a Python dict built by inserting the given
(key, value) pairs in order: distinct keys count once. -/
def dict_size (l : List (Nat × Nat)) : Nat := (l.map Prod.fst).dedup.length

/-- MatrixWrapper.convert (matrix_factorization.py lines 107-125).
Signature in the source: convert(self, value, to_category=True, feature=False).
There is no other parameter; an unknown value raises KeyError. -/
def MatrixWrapper.convert (mw : MatrixWrapper) (value : Nat)
    (to_category : Bool := true) (feature : Bool := false) : Except PyError Nat :=
  let m :=
    if to_category then
      if feature then mw.m2_inv else mw.m1_inv
    else
      if feature then mw.m2 else mw.m1
  match m.lookup value with
  | some res => Except.ok res
  | none => Except.error PyError.keyError

/-- Column values of the requested axis (col2 when feature is requested). -/
def MatrixWrapper.axis_vals (mw : MatrixWrapper) (feature : Bool) : List Nat :=
  if feature then mw.col2_vals else mw.col1_vals

/-- Forward map of the requested axis. -/
def MatrixWrapper.fwd (mw : MatrixWrapper) (feature : Bool) : List (Nat × Nat) :=
  if feature then mw.m2 else mw.m1

/-- Inverse map of the requested axis. -/
def MatrixWrapper.inv (mw : MatrixWrapper) (feature : Bool) : List (Nat × Nat) :=
  if feature then mw.m2_inv else mw.m1_inv

/-! ### Lemmas about the enumerated maps -/

theorem lookup_enum_from_mem {l : List Nat} {k c v : Nat}
    (h : (enum_from k l).lookup c = some v) : v ∈ l := by
  induction l generalizing k with
  | nil => simp [enum_from] at h
  | cons a rest ih =>
    simp only [enum_from, List.lookup] at h
    by_cases hc : c == k
    · simp [hc] at h
      simp [h]
    · simp [hc] at h
      exact List.mem_cons_of_mem _ (ih h)

theorem enum_round_trip {l : List Nat} {v : Nat} (hv : v ∈ l) (k : Nat) :
    ∃ c, ((enum_from k l).map (fun p => (p.2, p.1))).lookup v = some c ∧
      k ≤ c ∧ (enum_from k l).lookup c = some v := by
  induction l generalizing k with
  | nil => simp at hv
  | cons a rest ih =>
    by_cases hva : v = a
    · subst hva
      refine ⟨k, ?_, Nat.le_refl k, ?_⟩
      · simp [enum_from, List.lookup]
      · simp [enum_from, List.lookup]
    · have hvr : v ∈ rest := by
        rcases List.mem_cons.mp hv with h | h
        · exact absurd h hva
        · exact h
      obtain ⟨c, hc1, hc2, hc3⟩ := ih hvr (k + 1)
      refine ⟨c, ?_, Nat.le_of_succ_le hc2, ?_⟩
      · simp only [enum_from, List.map, List.lookup]
        have : (v == a) = false := by simp [hva]
        simp [this, hc1]
      · simp only [enum_from, List.lookup]
        have hck : (c == k) = false := by
          have : k ≠ c := Nat.ne_of_lt hc2
          simp [Ne.symm this]
        simp [hck, hc3]

theorem enum_code_range {l : List Nat} (hnd : l.Nodup) {i : Nat} (hi : i < l.length) (k : Nat) :
    ∃ v, (enum_from k l).lookup (k + i) = some v ∧
      ((enum_from k l).map (fun p => (p.2, p.1))).lookup v = some (k + i) := by
  induction l generalizing k i with
  | nil => simp at hi
  | cons a rest ih =>
    cases i with
    | zero =>
      refine ⟨a, ?_, ?_⟩
      · simp [enum_from, List.lookup]
      · simp [enum_from, List.lookup]
    | succ j =>
      have hj : j < rest.length := Nat.lt_of_succ_lt_succ hi
      have hndr : rest.Nodup := (List.nodup_cons.mp hnd).2
      obtain ⟨v, hv1, hv2⟩ := ih hndr hj (k + 1)
      have hvr : v ∈ rest := lookup_enum_from_mem hv1
      have hva : v ≠ a := by
        intro h
        exact (List.nodup_cons.mp hnd).1 (h ▸ hvr)
      have harith : k + (j + 1) = (k + 1) + j := by omega
      refine ⟨v, ?_, ?_⟩
      · simp only [enum_from, List.lookup]
        have : (k + (j + 1) == k) = false := by
          simp only [beq_eq_false_iff_ne, ne_eq]
          omega
        simp only [this]
        rw [harith]
        exact hv1
      · simp only [enum_from, List.map, List.lookup]
        have : (v == a) = false := by simp [hva]
        simp only [this]
        rw [harith]
        exact hv2

theorem enum_from_fst (l : List Nat) (k : Nat) :
    (enum_from k l).map Prod.fst = List.range' k l.length := by
  induction l generalizing k with
  | nil => simp [enum_from]
  | cons a rest ih => simp [enum_from, List.range'_succ, ih]

theorem enum_from_snd (l : List Nat) (k : Nat) :
    ((enum_from k l).map (fun p => (p.2, p.1))).map Prod.fst = l := by
  induction l generalizing k with
  | nil => simp [enum_from]
  | cons a rest ih => simp [enum_from, ih]

theorem categories_nodup (vals : List Nat) : (categories vals).Nodup :=
  ((List.perm_insertionSort _ vals.dedup).nodup_iff).mpr vals.nodup_dedup

theorem mem_categories {vals : List Nat} {v : Nat} : v ∈ categories vals ↔ v ∈ vals := by
  unfold categories
  rw [List.mem_insertionSort, List.mem_dedup]

theorem inv_eq_fwd_swap (mw : MatrixWrapper) (feature : Bool) :
    mw.inv feature = (mw.fwd feature).map (fun p => (p.2, p.1)) := by
  cases feature <;> rfl

theorem fwd_eq_enum (mw : MatrixWrapper) (feature : Bool) :
    mw.fwd feature = enum_from 0 (categories (mw.axis_vals feature)) := by
  cases feature <;> rfl

theorem convert_to_category (mw : MatrixWrapper) (v : Nat) (feature : Bool) :
    mw.convert v true feature =
      match (mw.inv feature).lookup v with
      | some res => Except.ok res
      | none => Except.error PyError.keyError := by
  cases feature <;> rfl

theorem convert_to_id (mw : MatrixWrapper) (c : Nat) (feature : Bool) :
    mw.convert c false feature =
      match (mw.fwd feature).lookup c with
      | some res => Except.ok res
      | none => Except.error PyError.keyError := by
  cases feature <;> rfl

/-- C5: for every Similarity Engine and every id known at construction on either
axis, translating the id to its category code and the code back to an id
returns the original id; the forward and inverse dictionaries of each axis
have the same number of keys; and over the full dense code range the forward
and inverse maps are exact mutual inverses. -/
theorem translate_round_trip_and_index_inverse
    (mw : MatrixWrapper) (feature : Bool) (v i : Nat) :
    (v ∈ mw.axis_vals feature →
      ∃ c, mw.convert v true feature = Except.ok c ∧
        mw.convert c false feature = Except.ok v) ∧
    dict_size (mw.fwd feature) = dict_size (mw.inv feature) ∧
    (i < (mw.fwd feature).length →
      ∃ w, (mw.fwd feature).lookup i = some w ∧
        (mw.inv feature).lookup w = some i) := by
  refine ⟨?_, ?_, ?_⟩
  · intro hv
    have hvc : v ∈ categories (mw.axis_vals feature) := mem_categories.mpr hv
    obtain ⟨c, hc1, _, hc3⟩ := enum_round_trip hvc 0
    refine ⟨c, ?_, ?_⟩
    · rw [convert_to_category, inv_eq_fwd_swap, fwd_eq_enum, hc1]
    · rw [convert_to_id, fwd_eq_enum, hc3]
  · rw [inv_eq_fwd_swap, fwd_eq_enum]
    unfold dict_size
    rw [enum_from_fst, enum_from_snd]
    rw [List.Nodup.dedup (List.nodup_range' _ _), List.Nodup.dedup (categories_nodup _)]
    rw [List.length_range']
  · intro hi
    rw [fwd_eq_enum] at hi ⊢
    rw [inv_eq_fwd_swap, fwd_eq_enum]
    have hlen : i < (categories (mw.axis_vals feature)).length := by
      have := enum_from_fst (categories (mw.axis_vals feature)) 0
      have hl : (enum_from 0 (categories (mw.axis_vals feature))).length
          = (categories (mw.axis_vals feature)).length := by
        have := congrArg List.length (enum_from_fst (categories (mw.axis_vals feature)) 0)
        simpa using this
      omega
    obtain ⟨w, hw1, hw2⟩ := enum_code_range (categories_nodup (mw.axis_vals feature)) hlen 0
    exact ⟨w, by simpa using hw1, by simpa using hw2⟩

/-- Witness for C5 at a concrete engine: column values [30, 10, 30, 20] give
category codes 0, 1, 2 for ids 10, 20, 30; id 20 round-trips through code 1
and code 2 maps to id 30 and back. -/
theorem translate_round_trip_witness :
    20 ∈ (MatrixWrapper.mk [30, 10, 30, 20] [7]).axis_vals false ∧
    (∃ c, (MatrixWrapper.mk [30, 10, 30, 20] [7]).convert 20 true false = Except.ok c ∧
      (MatrixWrapper.mk [30, 10, 30, 20] [7]).convert c false false = Except.ok 20) ∧
    2 < ((MatrixWrapper.mk [30, 10, 30, 20] [7]).fwd false).length ∧
    (∃ w, ((MatrixWrapper.mk [30, 10, 30, 20] [7]).fwd false).lookup 2 = some w ∧
      ((MatrixWrapper.mk [30, 10, 30, 20] [7]).inv false).lookup w = some 2) :=
  ⟨by decide,
   (translate_round_trip_and_index_inverse (MatrixWrapper.mk [30, 10, 30, 20] [7]) false 20 2).1
     (by decide),
   by decide,
   (translate_round_trip_and_index_inverse (MatrixWrapper.mk [30, 10, 30, 20] [7]) false 20 2).2.2
     (by decide)⟩

/-- C7: evaluation of the source convert at an unknown id.  The lookup is
fatal: convert raises KeyError.  The signature of MatrixWrapper.convert in
matrix_factorization.py line 107 is convert(self, value, to_category=True,
feature=False): it has no tolerant raising parameter, although core.py lines
172 and 253 call it with raising=False; in Python those calls fail with
TypeError before any lookup happens. -/
theorem convert_unknown_id_raises :
    (MatrixWrapper.mk [30, 10, 30, 20] [7]).convert 999 true false
      = Except.error PyError.keyError ∧
    (MatrixWrapper.mk [30, 10, 30, 20] [7]).convert 999 false false
      = Except.error PyError.keyError := by
  constructor <;> rfl

/-! ## Character Cluster Engine (matrix_factorization.py, CharCluster lines 176-229)

CharCluster holds a target character id and a trained MatrixWrapper; the only
part of the engine it consumes is the neighbour query get_similar, which
translates the id to its code, asks the opaque trained model for the top
ranked similar codes and translates back.  The query is therefore embedded
as an arbitrary function sim from a character id and a result cap to a
ranked list of (character id, confidence) pairs, the confidence type held
abstract.
-/

/-- ClusterConfig (config.py lines 44-76).  Field names follow the stored
attributes: aco = acceptable_overlap, l1 = level1_limit, l2 = level2_limit.
The constructor asserts 3 < perc_cutoff < 50 and aco > 3. -/
structure ClusterConfig where
  perc_cutoff : Nat
  aco : Nat
  l1 : Option Nat
  l2 : Option Nat
  weighted : Bool
  log_scale : Bool
  deriving DecidableEq, Repr

/-- The score field of a cluster tuple.  The source computes 1, freq, or
math.log(freq); the logarithm is a float whose value no verified property
inspects, so it is embedded symbolically by its argument. -/
inductive Score where
  | one : Score
  | lin : Nat → Score
  | logn : Nat → Score
  deriving DecidableEq, Repr

/-- Score computation of CharCluster._expand lines 210-215: score = 1,
unless weighted, in which case freq, or log(freq) when log_scale. -/
def score_of (weighted log_scale : Bool) (freq : Nat) : Score :=
  if weighted then
    if log_scale then Score.logn freq else Score.lin freq
  else Score.one

/-- All character ids produced across the level-2 neighbour lists, with
multiplicity, in expansion order (CharCluster._expand lines 196-203: level1
= get_similar(target, top_n=l1); for each level-1 character, every character
of its level-2 list feeds the Counter once). -/
def level2_chars {β : Type} (sim : Nat → Nat → List (Nat × β))
    (target l1 l2 : Nat) : List Nat :=
  (sim target l1).flatMap (fun p => (sim p.1 l2).map Prod.fst)

/-- Counter.most_common(): the distinct counted keys ordered by descending
count.  Python orders equal counts by first insertion; the tie order is
irrelevant to every property below, which only use membership. -/
def most_common (l : List Nat) : List Nat :=
  List.insertionSort (fun a b => l.count b ≤ l.count a) l.dedup

/-- CharCluster._expand lines 188-220: count level-2 appearances, then walk
counter.most_common() appending (char_id, freq, score) to the positive list
when freq >= aco and to the negative list otherwise. -/
def CharCluster.expand {β : Type} (sim : Nat → Nat → List (Nat × β))
    (target l1 l2 aco : Nat) (weighted log_scale : Bool) :
    List (Nat × Nat × Score) × List (Nat × Nat × Score) :=
  ((most_common (level2_chars sim target l1 l2)).map
      (fun c => (c, (level2_chars sim target l1 l2).count c,
        score_of weighted log_scale ((level2_chars sim target l1 l2).count c)))).partition
    (fun t => aco ≤ t.2.1)

/-- Level-1 cap of CharCluster.retrieve lines 223-224:
l1 = min(int(float(m1_count) * perc_cutoff / 100), config.l1 or m1_count).
The float product of two machine integers of this size is exact, so the
truncating int() is natural-number division. -/
def retrieve_l1 (m1_count : Nat) (config : ClusterConfig) : Nat :=
  min (m1_count * config.perc_cutoff / 100) (config.l1.getD m1_count)

/-- Level-2 cap of CharCluster.retrieve line 225: config.l2 or m1_count. -/
def retrieve_l2 (m1_count : Nat) (config : ClusterConfig) : Nat :=
  config.l2.getD m1_count

/-- CharCluster.retrieve lines 222-229.  Its only parameters in the source
are self and config; m1_count comes from the bound MatrixWrapper and sim is
its neighbour query. -/
def CharCluster.retrieve {β : Type} (m1_count : Nat)
    (sim : Nat → Nat → List (Nat × β)) (target : Nat) (config : ClusterConfig) :
    List (Nat × Nat × Score) × List (Nat × Nat × Score) :=
  CharCluster.expand sim target (retrieve_l1 m1_count config)
    (retrieve_l2 m1_count config) config.aco config.weighted config.log_scale

/-- HLA_CLUSTER_CONFIG (config.py lines 113-115): perc_cutoff=10,
level2_limit=30, acceptable_overlap=10, weighted=False, log_scale
defaulting to True, level1_limit defaulting to None. -/
def HLA_CLUSTER_CONFIG : ClusterConfig :=
  { perc_cutoff := 10, aco := 10, l1 := none, l2 := some 30,
    weighted := false, log_scale := true }

/-! ### Lemmas about the expansion -/

theorem mem_most_common {l : List Nat} {c : Nat} : c ∈ most_common l ↔ c ∈ l := by
  unfold most_common
  rw [List.mem_insertionSort, List.mem_dedup]

theorem mem_map_partition {α γ : Type} (p : α → Bool) (f : α → γ) (l : List α) (c : γ) :
    (c ∈ (l.filter p).map f ∨ c ∈ (l.filter (not ∘ p)).map f) ↔ c ∈ l.map f := by
  simp only [List.mem_map, List.mem_filter]
  constructor
  · rintro (⟨a, ⟨ha, _⟩, rfl⟩ | ⟨a, ⟨ha, _⟩, rfl⟩) <;> exact ⟨a, ha, rfl⟩
  · rintro ⟨a, ha, rfl⟩
    by_cases hp : p a
    · exact Or.inl ⟨a, ⟨ha, hp⟩, rfl⟩
    · exact Or.inr ⟨a, ⟨ha, by simp [Function.comp, hp]⟩, rfl⟩

theorem expand_cover {β : Type} (sim : Nat → Nat → List (Nat × β))
    (target l1 l2 aco : Nat) (weighted log_scale : Bool) (c : Nat) :
    (c ∈ (CharCluster.expand sim target l1 l2 aco weighted log_scale).1.map (fun t => t.1) ∨
     c ∈ (CharCluster.expand sim target l1 l2 aco weighted log_scale).2.map (fun t => t.1)) ↔
    c ∈ level2_chars sim target l1 l2 := by
  unfold CharCluster.expand
  rw [List.partition_eq_filter_filter]
  dsimp only
  rw [mem_map_partition]
  rw [List.map_map]
  have : ((fun t : Nat × Nat × Score => t.1) ∘
      (fun c => (c, (level2_chars sim target l1 l2).count c,
        score_of weighted log_scale ((level2_chars sim target l1 l2).count c)))) = id := rfl
  rw [this, List.map_id]
  exact mem_most_common

theorem expand_pos_freq {β : Type} (sim : Nat → Nat → List (Nat × β))
    (target l1 l2 aco : Nat) (weighted log_scale : Bool) :
    ∀ t ∈ (CharCluster.expand sim target l1 l2 aco weighted log_scale).1, aco ≤ t.2.1 := by
  intro t ht
  unfold CharCluster.expand at ht
  rw [List.partition_eq_filter_filter] at ht
  exact of_decide_eq_true (List.mem_filter.mp ht).2

theorem expand_neg_freq {β : Type} (sim : Nat → Nat → List (Nat × β))
    (target l1 l2 aco : Nat) (weighted log_scale : Bool) :
    ∀ t ∈ (CharCluster.expand sim target l1 l2 aco weighted log_scale).2, t.2.1 < aco := by
  intro t ht
  unfold CharCluster.expand at ht
  rw [List.partition_eq_filter_filter] at ht
  have h := (List.mem_filter.mp ht).2
  have : ¬(aco ≤ t.2.1) := by
    intro hle
    simp [hle] at h
  omega

/-- C3: every positive tuple returned by retrieve has frequency at least the
overlap threshold, every negative tuple has frequency strictly below it, and
the character ids of positives and negatives together are exactly the
characters appearing at least once in some level-2 neighbour list. -/
theorem retrieve_threshold_partition_and_cover {β : Type} (m1_count : Nat)
    (sim : Nat → Nat → List (Nat × β)) (target : Nat) (config : ClusterConfig) :
    (∀ t ∈ (CharCluster.retrieve m1_count sim target config).1, config.aco ≤ t.2.1) ∧
    (∀ t ∈ (CharCluster.retrieve m1_count sim target config).2, t.2.1 < config.aco) ∧
    (∀ c : Nat,
      (c ∈ (CharCluster.retrieve m1_count sim target config).1.map (fun t => t.1) ∨
       c ∈ (CharCluster.retrieve m1_count sim target config).2.map (fun t => t.1)) ↔
      ∃ p ∈ sim target (retrieve_l1 m1_count config),
        c ∈ (sim p.1 (retrieve_l2 m1_count config)).map Prod.fst) := by
  refine ⟨expand_pos_freq sim target _ _ _ _ _, expand_neg_freq sim target _ _ _ _ _, ?_⟩
  intro c
  unfold CharCluster.retrieve
  rw [expand_cover]
  unfold level2_chars
  exact List.mem_flatMap

/-- A concrete neighbour query: character 0 has level-1 neighbours 10-14;
character 10 lists characters 2 and 3 at level 2, characters 11-14 list
character 2 only.  Confidences are placeholder naturals. -/
def sim_pos_neg : Nat → Nat → List (Nat × Nat) :=
  fun x n =>
    (if x = 0 then [(10, 1), (11, 1), (12, 1), (13, 1), (14, 1)]
     else if x = 10 then [(2, 1), (3, 1)]
     else [(2, 1)]).take n

/-- Witness for C3 at a concrete engine: the two-hop expansion with threshold
aco=4 puts character 2 (seen 5 times) in positives and character 3 (seen
once) in negatives, their frequency fields sitting on the right side of the
threshold. -/
theorem retrieve_threshold_witness :
    (2, 5, Score.one) ∈ (CharCluster.retrieve 100 sim_pos_neg 0
        { perc_cutoff := 10, aco := 4, l1 := none, l2 := some 30,
          weighted := false, log_scale := true }).1 ∧
    (4 : Nat) ≤ (2, 5, Score.one).2.1 ∧
    (3, 1, Score.one) ∈ (CharCluster.retrieve 100 sim_pos_neg 0
        { perc_cutoff := 10, aco := 4, l1 := none, l2 := some 30,
          weighted := false, log_scale := true }).2 ∧
    (3, 1, Score.one).2.1 < 4 :=
  ⟨by decide,
   (retrieve_threshold_partition_and_cover 100 sim_pos_neg 0
      { perc_cutoff := 10, aco := 4, l1 := none, l2 := some 30,
        weighted := false, log_scale := true }).1 (2, 5, Score.one) (by decide),
   by decide,
   (retrieve_threshold_partition_and_cover 100 sim_pos_neg 0
      { perc_cutoff := 10, aco := 4, l1 := none, l2 := some 30,
        weighted := false, log_scale := true }).2.1 (3, 1, Score.one) (by decide)⟩

/-- A concrete neighbour query under which every character, the target
included, lists character 0 as its one neighbour.  A trained factor model can
rank the query character as its own nearest neighbour, and nothing in
_expand removes the target from the level-2 counts. -/
def sim_self_loop : Nat → Nat → List (Nat × Nat) :=
  fun _ n => [(0, 1)].take n

/-- C4 counterexample: with the shipped HLA_CLUSTER_CONFIG and a neighbour
query that returns character 0 everywhere, retrieving for target 0 returns
the target id itself inside the negative sequence: the claim that the target
appears in neither output is false for this retrieve call. -/
theorem retrieve_returns_target_counterexample :
    0 ∈ (CharCluster.retrieve 100 sim_self_loop 0 HLA_CLUSTER_CONFIG).2.map
      (fun t => t.1) := by decide

/-- C4 amended: the target id appears in neither the positive nor the
negative sequence provided the similarity query never mentions the target
inside any level-2 neighbour list (exclusion is not enforced by _expand; it
holds exactly under this precondition on the trained model). -/
theorem retrieve_excludes_target_of_not_level2 {β : Type} (m1_count : Nat)
    (sim : Nat → Nat → List (Nat × β)) (target : Nat) (config : ClusterConfig)
    (h : target ∉ level2_chars sim target (retrieve_l1 m1_count config)
      (retrieve_l2 m1_count config)) :
    target ∉ (CharCluster.retrieve m1_count sim target config).1.map (fun t => t.1) ∧
    target ∉ (CharCluster.retrieve m1_count sim target config).2.map (fun t => t.1) := by
  constructor
  · intro hmem
    apply h
    rw [← expand_cover sim target (retrieve_l1 m1_count config) (retrieve_l2 m1_count config)
      config.aco config.weighted config.log_scale target]
    exact Or.inl hmem
  · intro hmem
    apply h
    rw [← expand_cover sim target (retrieve_l1 m1_count config) (retrieve_l2 m1_count config)
      config.aco config.weighted config.log_scale target]
    exact Or.inr hmem

/-- A concrete neighbour query that never returns the query character
itself: every character lists only its successor. -/
def sim_shift : Nat → Nat → List (Nat × Nat) :=
  fun x n => [(x + 1, 1)].take n

/-- Witness for the amended C4: under sim_shift the target 0 never occurs in
a level-2 list, and both returned sequences avoid it. -/
theorem retrieve_excludes_target_witness :
    0 ∉ level2_chars sim_shift 0 (retrieve_l1 100 HLA_CLUSTER_CONFIG)
      (retrieve_l2 100 HLA_CLUSTER_CONFIG) ∧
    0 ∉ (CharCluster.retrieve 100 sim_shift 0 HLA_CLUSTER_CONFIG).1.map (fun t => t.1) ∧
    0 ∉ (CharCluster.retrieve 100 sim_shift 0 HLA_CLUSTER_CONFIG).2.map (fun t => t.1) :=
  ⟨by decide,
   (retrieve_excludes_target_of_not_level2 100 sim_shift 0 HLA_CLUSTER_CONFIG (by decide)).1,
   (retrieve_excludes_target_of_not_level2 100 sim_shift 0 HLA_CLUSTER_CONFIG (by decide)).2⟩

/-- A concrete neighbour query whose two-hop expansion reaches character 7
only. -/
def sim_outside : Nat → Nat → List (Nat × Nat) :=
  fun _ n => [(7, 1)].take n

/-- C1: evaluation showing the source retrieve applies no eligible-id
restriction.  With training-partition character ids {5}, the negative
sequence returned for target 0 is exactly character 7, which is not
eligible.  In the source, DataManager.write (core.py line 229) passes
limits=self.train_chars to CharCluster.retrieve, whose only parameter is
config (matrix_factorization.py line 222), so the Python call itself fails
with TypeError, and no filtering code exists in retrieve or _expand. -/
theorem retrieve_has_no_eligible_filter :
    (CharCluster.retrieve 100 sim_outside 0 HLA_CLUSTER_CONFIG).2.map (fun t => t.1) = [7] ∧
    7 ∉ [5] := by
  constructor <;> decide

/-! ## Partition Manager (core.py, DataManager lines 35-137)

DialogData rows carry columns show_id, char_name, char_id, dia1, dia2
(dataset.py line 220); DialogHeadData rows carry sent_id, show_id, char_id,
head_text among others (dataset.py line 202; only these four are read by the
verified code).  Frames are embedded as lists of rows in frame order.
-/

/-- One row of DialogData.data. -/
structure DialogRow where
  show_id : Nat
  char_name : Nat
  char_id : Nat
  dia1 : String
  dia2 : String
  deriving DecidableEq, Repr

/-- One row of DialogHeadData.data, restricted to the columns the manager
reads. -/
structure HeadRow where
  sent_id : Nat
  show_id : Nat
  char_id : Nat
  head_text : Nat
  deriving DecidableEq, Repr

/-- DataManager state after __init__ loads the datasets: dialog frame, head
frame, the test-show set and the target character id. -/
structure DataManager where
  dd : List DialogRow
  hd : List HeadRow
  test_shows : List Nat
  target : Nat
  deriving DecidableEq, Repr

/-- self.target_dialogs = dd.data.loc[dd.data.char_id == target]
(core.py line 123). -/
def DataManager.target_dialogs (m : DataManager) : List DialogRow :=
  m.dd.filter (fun r => r.char_id == m.target)

/-- self.test_dialogs = rows of other characters inside test shows
(core.py lines 126-127). -/
def DataManager.test_dialogs (m : DataManager) : List DialogRow :=
  m.dd.filter (fun r => r.char_id != m.target && m.test_shows.contains r.show_id)

/-- self.train_dialogs = all rows outside the test shows
(core.py line 131). -/
def DataManager.train_dialogs (m : DataManager) : List DialogRow :=
  m.dd.filter (fun r => !(m.test_shows.contains r.show_id))

/-- self.train_chars = set(train_dialogs.char_id.unique()) (core.py
line 132). -/
def DataManager.train_chars (m : DataManager) : List Nat :=
  (m.train_dialogs.map (fun r => r.char_id)).dedup

/-- set(test_dialogs.char_id.unique()), built inside the sanity check
(core.py lines 66-67). -/
def DataManager.test_chars (m : DataManager) : List Nat :=
  (m.test_dialogs.map (fun r => r.char_id)).dedup

/-- DataManager._sanity_report (core.py lines 42-87): true exactly when
construction survives every assertion.  An empty target frame makes
iloc[0] raise IndexError, which also aborts construction. -/
def DataManager.sanity_report (m : DataManager) : Bool :=
  match m.target_dialogs with
  | [] => false
  | first_row :: _ =>
    decide (300 < m.target_dialogs.length) &&
    m.test_shows.contains first_row.show_id &&
    decide ((m.target_dialogs.map (fun r => r.char_id)).dedup.length = 1) &&
    ((m.target_dialogs.map (fun r => r.char_id)).dedup.head? == some m.target) &&
    decide ((m.train_dialogs.filter (fun r => r.char_id == m.target)).length = 0) &&
    m.test_shows.all
      (fun sid => (m.train_dialogs.filter (fun r => r.show_id == sid)).length == 0) &&
    decide ((m.train_chars.filter (fun c => m.test_chars.contains c)).length = 0) &&
    decide ((m.hd.filter (fun r => r.char_id == m.target)).length = 0) &&
    m.test_shows.all
      (fun sid => (m.hd.filter (fun r => r.show_id == sid)).length = 0) &&
    !(m.train_chars.contains m.target)

/-- C2: if construction passes the sanity assertions then every row of the
target partition has its show id inside the configured test-show set;
equivalently, a target row outside the test shows makes some assertion fail
(such a row lands in the training partition, violating the zero-target-rows-
in-training assertion even though the explicit show check reads only the
first target row). -/
theorem sanity_forces_target_in_test_shows (m : DataManager)
    (h : m.sanity_report = true) :
    ∀ r ∈ m.target_dialogs, r.show_id ∈ m.test_shows := by
  intro r hr
  by_contra hshow
  unfold DataManager.sanity_report at h
  rcases hm : m.target_dialogs with _ | ⟨first_row, rest⟩
  · rw [hm] at h
    exact Bool.false_ne_true h
  rw [hm] at h
  simp only [Bool.and_eq_true, decide_eq_true_eq] at h
  have hempty : (m.train_dialogs.filter (fun r => r.char_id == m.target)).length = 0 :=
    h.1.1.1.1.1.2
  have hrdd : r ∈ m.dd ∧ (r.char_id == m.target) = true :=
    List.mem_filter.mp (show r ∈ m.dd.filter (fun r => r.char_id == m.target) from hr)
  have hrtrain : r ∈ m.train_dialogs := by
    apply List.mem_filter.mpr
    exact ⟨hrdd.1, by simp [hshow]⟩
  have : r ∈ m.train_dialogs.filter (fun r => r.char_id == m.target) :=
    List.mem_filter.mpr ⟨hrtrain, hrdd.2⟩
  rw [List.length_eq_zero] at hempty
  rw [hempty] at this
  exact List.not_mem_nil r this

/-- A concrete manager passing every sanity assertion: 301 target rows in
test show 100, one training row of character 2 in show 200, empty head
frame. -/
def dm_example : DataManager :=
  { dd := List.replicate 301
        { show_id := 100, char_name := 0, char_id := 1, dia1 := "", dia2 := "" }
      ++ [{ show_id := 200, char_name := 0, char_id := 2, dia1 := "", dia2 := "" }],
    hd := [], test_shows := [100], target := 1 }

set_option maxRecDepth 4000 in
/-- Witness for C2: dm_example passes the sanity report, the target row
shape is a member of its target partition, and its show id 100 is in the
test-show set. -/
theorem sanity_witness :
    dm_example.sanity_report = true ∧
    ({ show_id := 100, char_name := 0, char_id := 1, dia1 := "", dia2 := "" } : DialogRow)
      ∈ dm_example.target_dialogs ∧
    (100 : Nat) ∈ dm_example.test_shows :=
  ⟨by decide, by decide,
   sanity_forces_target_in_test_shows dm_example (by decide)
     { show_id := 100, char_name := 0, char_id := 1, dia1 := "", dia2 := "" }
     (by decide)⟩

/-! ## Similarity Engine training validation (matrix_factorization.py,
MatrixWrapper.get_train lines 72-105)

The held-out precision returned by precision_at_k is a ratio of hits over
queries, embedded as a rational.  When report_test is requested and
train_config.safe_pass is set (the constructor guarantees a set value lies
strictly between 0 and 1, so Python truthiness coincides with being set),
line 97 runs: assert prec > train_config.safe_pass.
-/

/-- The safety assertion of get_train line 96-97: true when no
AssertionError is raised. -/
def safe_check (prec : ℚ) (safe_pass : Option ℚ) : Bool :=
  match safe_pass with
  | some sp => decide (sp < prec)
  | none => true

/-- The report_test gate of get_train line 80: the safety assertion only
runs when validation is requested. -/
def get_train_safe_check (report_test : Bool) (prec : ℚ) (safe_pass : Option ℚ) : Bool :=
  if report_test then safe_check prec safe_pass else true

/-- C8 counterexample: with threshold 1/5 configured and measured precision
exactly 1/5, the train call fails the safety assertion although the
precision does not fall strictly below the threshold — refuting the claim
that a precision equal to the threshold does not fail. -/
theorem get_train_equal_threshold_fails :
    get_train_safe_check true (1/5) (some (1/5)) = false ∧ ¬((1 : ℚ)/5 < 1/5) := by
  constructor
  · simp [get_train_safe_check, safe_check]
  · exact lt_irrefl _

/-- C8 amended: with validation enabled and safe threshold sp configured,
the train call fails the safety assertion exactly when the measured
precision is less than or equal to sp; the source asserts prec strictly
greater than safe_pass, so equality also fails. -/
theorem get_train_fails_iff_le (prec sp : ℚ) :
    get_train_safe_check true prec (some sp) = false ↔ prec ≤ sp := by
  simp [get_train_safe_check, safe_check, not_lt]

/-- Witness for the amended C8: precision 1/10 against threshold 1/5 fails
the assertion. -/
theorem get_train_fails_witness :
    get_train_safe_check true (1/10) (some (1/5)) = false :=
  (get_train_fails_iff_le (1/10) (1/5)).mpr (by norm_num)

/-! ## Candidate Sampling Engine (core.py, DataManager._get_candidates lines 139-186)

The train branch walks get_similar(gt_id, top_n=candidate_count*200,
convert_back=False) in rank order; a neighbour whose category code lies in
sent_pool reaches
  sent_id = sent_matrix.convert(sent_cat, to_category=False, raising=False)
(core.py line 172).  MatrixWrapper.convert (matrix_factorization.py line
107) accepts only (value, to_category, feature): Python rejects the call
with TypeError before any lookup runs.  Were that call to succeed, the next
lines assert _sent.char_id in self._neg, where self._neg holds the
(char_id, freq, score) triples returned by retrieve, so the membership test
of a bare char id against triples could never hold either.
-/

/-- The convert call carrying the unsupported raising keyword argument. -/
def convert_with_raising_kw : Except PyError Nat :=
  Except.error PyError.typeError

/-- Train branch of _get_candidates lines 168-179, started from
res = [ground-truth utterance]: a pool neighbour dies in the keyword
TypeError (the append, assertion and count-break below it are unreachable);
a neighbour outside the pool is skipped silently; exhausting the neighbours
returns res, which still holds only the ground truth. -/
def get_candidates_train (gt_dia2 : String) (neighbours : List (Nat × Nat))
    (sent_pool : List Nat) : Except PyError (List String) :=
  match neighbours with
  | [] => Except.ok [gt_dia2]
  | (sent_cat, _) :: rest =>
    if sent_pool.contains sent_cat then
      convert_with_raising_kw.bind (fun _ => Except.ok [gt_dia2])
    else
      get_candidates_train gt_dia2 rest sent_pool

/-- C6: evaluation of the train branch.  A call whose ranked neighbours
reach a pool sentence (the situation the claim describes) raises TypeError
instead of extending the candidate list, and a call with no pool neighbour
returns the ground truth alone, so no successful train-mode call ever
contains a candidate drawn from the negative characters. -/
theorem get_candidates_train_crashes :
    get_candidates_train "gt" [(4, 1)] [4] = Except.error PyError.typeError ∧
    get_candidates_train "gt" [(9, 1)] [4] = Except.ok ["gt"] := by
  constructor <;> rfl

/-- Columns of DialogData.data (dataset.py line 220). -/
def dialog_columns : List String :=
  ["show_id", "char_name", "char_id", "dia1", "dia2"]

/-- Attribute access .dia2 on a Python str object raises AttributeError. -/
def str_attr_dia2 (_s : String) : Except PyError String :=
  Except.error PyError.attributeError

/-- Test branch of _get_candidates lines 180-186: res = [ground truth];
then for dia in self.test_dialogs.sample(n=candidate_count-1):
res.append(dia.dia2).  Iterating a pandas DataFrame yields its column
labels, not its rows, so dia is the string show_id on the first pass and
dia.dia2 raises AttributeError; the sampled rows are never read. -/
def get_candidates_test (gt_dia2 : String) (_sampled : List DialogRow) :
    Except PyError (List String) := do
  let mut res := [gt_dia2]
  for dia in dialog_columns do
    let d ← str_attr_dia2 dia
    res := res ++ [d]
  return res

/-- C9: evaluation of the test branch: every test-mode sampling call dies
with AttributeError on the first loop pass, whatever rows were sampled, so
no call returns the claimed count-length candidate list. -/
theorem get_candidates_test_crashes (gt : String) (sampled : List DialogRow) :
    get_candidates_test gt sampled = Except.error PyError.attributeError := rfl

/-! ## Line cleaning and example formatting (core.py lines 15-32, 188-203)

Strings are embedded as lists of characters.  clean_line applies three
regex substitutions, each replacing one fixed character by a space, then
str.strip().  The strip is embedded over the ASCII whitespace characters
recognised by str.strip (space, tab, newline, carriage return, vertical
tab, form feed); Python additionally strips the rarer Unicode spaces,
which only strips more.
-/

/-- re.sub of a single-character pattern by a space (core.py lines 24-26,
patterns RE_NL, RE_T, RE_B). -/
def sub_char (bad : Char) (s : List Char) : List Char :=
  s.map (fun c => if c = bad then ' ' else c)

/-- The character class str.strip removes (ASCII part). -/
def py_isspace (c : Char) : Bool :=
  c = ' ' || c = '\t' || c = '\n' || c = '\r' || c = Char.ofNat 11 || c = Char.ofNat 12

/-- str.strip(): drop whitespace from the front, then from the back. -/
def py_strip (s : List Char) : List Char :=
  (((s.dropWhile py_isspace).reverse).dropWhile py_isspace).reverse

/-- clean_line (core.py lines 20-32): replace newline, tab and pipe by
spaces, then strip. -/
def clean_line (s : List Char) : List Char :=
  py_strip (sub_char '|' (sub_char '\t' (sub_char '\n' s)))

/-- Decimal digit character, codepoint 48 + d for d below 10. -/
def digit_char (d : Nat) : Char := Char.ofNat (48 + d)

/-- Decimal rendering with explicit fuel; fuel n + 1 always suffices since
the argument shrinks by division by ten. -/
def nat_chars_aux : Nat → Nat → List Char
  | 0, _ => []
  | fuel + 1, n =>
    if n < 10 then [digit_char n]
    else nat_chars_aux fuel (n / 10) ++ [digit_char (n % 10)]

/-- str(n): the decimal digits of a line counter. -/
def nat_chars (n : Nat) : List Char := nat_chars_aux (n + 1) n

/-- One persona line (core.py line 195): the numbered
persona: i am ... sentence; the hla text is inserted raw. -/
def persona_line (cnt : Nat) (hla : List Char) : List Char :=
  nat_chars cnt ++ (" persona: i am ".data) ++ hla ++ ('.' :: '\n' :: [])

/-- The persona lines of _format_fb_line lines 192-196, numbered from 1. -/
def persona_block (hlas : List (List Char)) : List Char :=
  (hlas.enum).flatMap (fun p => persona_line (p.1 + 1) p.2)

/-- The candidate region before clipping (core.py lines 200-201): each
cleaned candidate followed by a pipe. -/
def cand_cells (sentences : List (List Char)) : List Char :=
  (sentences.map (fun s => clean_line s ++ ['|'])).flatten

/-- The candidate region as written: the trailing pipe is clipped by
line[:-1]. -/
def cand_blob (sentences : List (List Char)) : List Char :=
  (cand_cells sentences).dropLast

/-- DataManager._format_fb_line (core.py lines 188-203): persona lines, the
numbered tab-delimited ground-truth record, the pipe-terminated candidate
cells, then line[:-1] + a newline. -/
def format_fb_line (hlas : List (List Char)) (d1 d2 : List Char)
    (sentences : List (List Char)) (reward : List Char) : List Char :=
  (persona_block hlas ++ nat_chars (hlas.length + 1) ++ ' ' :: clean_line d1
      ++ '\t' :: clean_line d2 ++ '\t' :: reward ++ '\t' :: cand_cells sentences).dropLast
    ++ ['\n']

/-- Splitting a character list at every occurrence of a separator; the
parse a tab- or pipe-delimited consumer performs.  The recursive result is
never empty, so extending its first group is total. -/
def split_char (sep : Char) : List Char → List (List Char)
  | [] => [[]]
  | c :: cs =>
    if c = sep then [] :: split_char sep cs
    else (c :: (split_char sep cs).headI) :: (split_char sep cs).tail

/-! ### Lemmas about cleaning -/

theorem sub_char_not_mem {bad : Char} (hbad : bad ≠ ' ') (s : List Char) :
    bad ∉ sub_char bad s := by
  intro h
  obtain ⟨a, _, ha⟩ := List.mem_map.mp h
  by_cases h1 : a = bad
  · rw [if_pos h1] at ha
    exact hbad ha.symm
  · rw [if_neg h1] at ha
    exact h1 ha

theorem sub_char_keeps_not_mem {bad other : Char} (hbad : bad ≠ ' ')
    {s : List Char} (hs : bad ∉ s) : bad ∉ sub_char other s := by
  intro h
  obtain ⟨a, hmem, ha⟩ := List.mem_map.mp h
  by_cases h1 : a = other
  · rw [if_pos h1] at ha
    exact hbad ha.symm
  · rw [if_neg h1] at ha
    exact hs (ha ▸ hmem)

theorem mem_py_strip {c : Char} {s : List Char} (h : c ∈ py_strip s) : c ∈ s := by
  unfold py_strip at h
  rw [List.mem_reverse] at h
  have h2 := (List.dropWhile_sublist _).subset h
  rw [List.mem_reverse] at h2
  exact (List.dropWhile_sublist _).subset h2

theorem clean_line_no_newline (s : List Char) : '\n' ∉ clean_line s := by
  intro h
  exact sub_char_keeps_not_mem (by decide)
    (sub_char_keeps_not_mem (by decide) (sub_char_not_mem (by decide) s))
    (mem_py_strip h)

theorem clean_line_no_tab (s : List Char) : '\t' ∉ clean_line s := by
  intro h
  exact sub_char_keeps_not_mem (by decide)
    (sub_char_not_mem (by decide) (sub_char '\n' s)) (mem_py_strip h)

theorem clean_line_no_bar (s : List Char) : '|' ∉ clean_line s := by
  intro h
  exact sub_char_not_mem (by decide) (sub_char '\t' (sub_char '\n' s)) (mem_py_strip h)

theorem head?_dropWhile {p : Char → Bool} :
    ∀ {l : List Char} {c : Char}, (l.dropWhile p).head? = some c → p c = false := by
  intro l
  induction l with
  | nil => intro c h; simp [List.dropWhile] at h
  | cons a rest ih =>
    intro c h
    by_cases hp : p a
    · rw [List.dropWhile_cons_of_pos hp] at h
      exact ih h
    · rw [List.dropWhile_cons_of_neg hp] at h
      simp only [List.head?_cons, Option.some_inj] at h
      rw [← h]
      exact Bool.not_eq_true _ ▸ hp

theorem getLast?_dropWhile {p : Char → Bool} :
    ∀ {l : List Char} {c : Char}, (l.dropWhile p).getLast? = some c →
      l.getLast? = some c := by
  intro l
  induction l with
  | nil => intro c h; simp [List.dropWhile] at h
  | cons a rest ih =>
    intro c h
    by_cases hp : p a
    · rw [List.dropWhile_cons_of_pos hp] at h
      have hgot := ih h
      have hne : rest ≠ [] := by
        intro hnil
        rw [hnil] at hgot
        simp at hgot
      cases rest with
      | nil => exact absurd rfl hne
      | cons b t =>
        rw [List.getLast?_cons_cons]
        exact hgot
    · rw [List.dropWhile_cons_of_neg hp] at h
      exact h

theorem py_strip_head {s : List Char} {c : Char}
    (h : (py_strip s).head? = some c) : py_isspace c = false := by
  unfold py_strip at h
  rw [List.head?_reverse] at h
  have h2 := getLast?_dropWhile h
  rw [List.getLast?_reverse] at h2
  exact head?_dropWhile h2

theorem py_strip_last {s : List Char} {c : Char}
    (h : (py_strip s).getLast? = some c) : py_isspace c = false := by
  unfold py_strip at h
  rw [List.getLast?_reverse] at h
  exact head?_dropWhile h

theorem clean_line_head {s : List Char} {c : Char}
    (h : (clean_line s).head? = some c) : py_isspace c = false :=
  py_strip_head h

theorem clean_line_last {s : List Char} {c : Char}
    (h : (clean_line s).getLast? = some c) : py_isspace c = false :=
  py_strip_last h

/-! ### Lemmas about splitting and the formatted line -/

theorem split_char_ne_nil (sep : Char) (l : List Char) : split_char sep l ≠ [] := by
  induction l with
  | nil => simp [split_char]
  | cons c cs _ =>
    by_cases hc : c = sep <;> simp [split_char, hc]

theorem split_char_no_sep {sep : Char} : ∀ {l : List Char},
    (∀ c ∈ l, c ≠ sep) → split_char sep l = [l] := by
  intro l
  induction l with
  | nil => intro _; rfl
  | cons c cs ih =>
    intro h
    have hcs := ih (fun x hx => h x (List.mem_cons_of_mem c hx))
    have hc : c ≠ sep := h c (List.mem_cons_self c cs)
    simp [split_char, hc, hcs]

theorem split_char_append {sep : Char} : ∀ {a : List Char} (b : List Char),
    (∀ c ∈ a, c ≠ sep) → split_char sep (a ++ sep :: b) = a :: split_char sep b := by
  intro a
  induction a with
  | nil =>
    intro b _
    show split_char sep (sep :: b) = [] :: split_char sep b
    simp [split_char]
  | cons x xs ih =>
    intro b h
    have hx : x ≠ sep := h x (List.mem_cons_self x xs)
    have hxs := ih b (fun c hc => h c (List.mem_cons_of_mem x hc))
    show split_char sep (x :: (xs ++ sep :: b)) = (x :: xs) :: split_char sep b
    simp [split_char, hx, hxs]

theorem nat_chars_aux_digits : ∀ (fuel n : Nat) (c : Char),
    c ∈ nat_chars_aux fuel n → ∃ d, d < 10 ∧ c = digit_char d := by
  intro fuel
  induction fuel with
  | zero => intro n c h; simp [nat_chars_aux] at h
  | succ f ih =>
    intro n c h
    unfold nat_chars_aux at h
    by_cases hn : n < 10
    · rw [if_pos hn] at h
      simp only [List.mem_singleton] at h
      exact ⟨n, hn, h⟩
    · rw [if_neg hn] at h
      rcases List.mem_append.mp h with h2 | h2
      · exact ih (n / 10) c h2
      · simp only [List.mem_singleton] at h2
        exact ⟨n % 10, Nat.mod_lt n (by omega), h2⟩

theorem digit_char_not_special {d : Nat} (hd : d < 10) :
    digit_char d ≠ '\t' ∧ digit_char d ≠ '\n' ∧ digit_char d ≠ '|' := by
  interval_cases d <;> exact ⟨by decide, by decide, by decide⟩

theorem nat_chars_no_tab (n : Nat) : ∀ c ∈ nat_chars n, c ≠ '\t' := by
  intro c hc
  obtain ⟨d, hd, rfl⟩ := nat_chars_aux_digits (n + 1) n c hc
  exact (digit_char_not_special hd).1

theorem mem_cand_cells {sentences : List (List Char)} {c : Char}
    (h : c ∈ cand_cells sentences) : (∃ s ∈ sentences, c ∈ clean_line s) ∨ c = '|' := by
  unfold cand_cells at h
  obtain ⟨cell, hcell, hc⟩ := List.mem_flatten.mp h
  obtain ⟨s, hs, rfl⟩ := List.mem_map.mp hcell
  rcases List.mem_append.mp hc with h2 | h2
  · exact Or.inl ⟨s, hs, h2⟩
  · simp only [List.mem_singleton] at h2
    exact Or.inr h2

theorem cand_blob_no_tab (sentences : List (List Char)) :
    ∀ c ∈ cand_blob sentences, c ≠ '\t' := by
  intro c hc
  have hcc : c ∈ cand_cells sentences := (List.dropLast_sublist _).subset hc
  rcases mem_cand_cells hcc with ⟨s, _, hmem⟩ | rfl
  · intro hct
    exact clean_line_no_tab s (hct ▸ hmem)
  · decide

theorem cand_cells_ne_nil {sentences : List (List Char)} (h : sentences ≠ []) :
    cand_cells sentences ≠ [] := by
  cases sentences with
  | nil => exact absurd rfl h
  | cons s rest =>
    unfold cand_cells
    simp

theorem dropLast_cons_ne_nil {α : Type} (a : α) {l : List α} (h : l ≠ []) :
    (a :: l).dropLast = a :: l.dropLast := by
  cases l with
  | nil => exact absurd rfl h
  | cons b t => rfl

/-- The trailing clip line[:-1] only removes the final pipe of the
candidate cells: for a non-empty candidate list the formatted line
decomposes into the persona block followed by the tab-delimited record. -/
theorem format_fb_line_decomposition (hlas : List (List Char)) (d1 d2 : List Char)
    (sentences : List (List Char)) (hne : sentences ≠ []) :
    format_fb_line hlas d1 d2 sentences [] =
      persona_block hlas ++ nat_chars (hlas.length + 1) ++ ' ' :: clean_line d1
        ++ '\t' :: clean_line d2 ++ '\t' :: '\t' :: (cand_blob sentences ++ ['\n']) := by
  have hcc := cand_cells_ne_nil hne
  unfold format_fb_line cand_blob
  have h1 : persona_block hlas ++ nat_chars (hlas.length + 1) ++ ' ' :: clean_line d1
      ++ '\t' :: clean_line d2 ++ '\t' :: ([] : List Char) ++ '\t' :: cand_cells sentences
      = (persona_block hlas ++ nat_chars (hlas.length + 1) ++ ' ' :: clean_line d1
          ++ '\t' :: clean_line d2 ++ ['\t', '\t']) ++ cand_cells sentences := by
    simp
  rw [h1, List.dropLast_append_of_ne_nil _ hcc]
  simp

theorem record_line_tab_split (hlas : List (List Char)) (d1 d2 : List Char)
    (sentences : List (List Char)) :
    split_char '\t' (nat_chars (hlas.length + 1) ++ ' ' :: clean_line d1
        ++ '\t' :: clean_line d2 ++ '\t' :: '\t' :: (cand_blob sentences ++ ['\n']))
      = [nat_chars (hlas.length + 1) ++ ' ' :: clean_line d1, clean_line d2, [],
          cand_blob sentences ++ ['\n']] := by
  have h1 : ∀ c ∈ nat_chars (hlas.length + 1) ++ ' ' :: clean_line d1, c ≠ '\t' := by
    intro c hc
    rcases List.mem_append.mp hc with h | h
    · exact nat_chars_no_tab _ c h
    · rcases List.mem_cons.mp h with h | h
      · rw [h]; decide
      · intro hct
        exact clean_line_no_tab d1 (hct ▸ h)
  have h2 : ∀ c ∈ clean_line d2, c ≠ '\t' := by
    intro c hc hct
    exact clean_line_no_tab d2 (hct ▸ hc)
  have h4 : ∀ c ∈ cand_blob sentences ++ ['\n'], c ≠ '\t' := by
    intro c hc
    rcases List.mem_append.mp hc with h | h
    · exact cand_blob_no_tab sentences c h
    · simp only [List.mem_singleton] at h
      rw [h]; decide
  have hassoc : nat_chars (hlas.length + 1) ++ ' ' :: clean_line d1
      ++ '\t' :: clean_line d2 ++ '\t' :: '\t' :: (cand_blob sentences ++ ['\n'])
      = (nat_chars (hlas.length + 1) ++ ' ' :: clean_line d1)
        ++ '\t' :: (clean_line d2 ++ '\t' :: ([] ++ '\t' :: (cand_blob sentences ++ ['\n']))) := by
    simp [List.append_assoc]
  rw [hassoc]
  rw [split_char_append _ h1]
  rw [split_char_append _ h2]
  rw [split_char_append _ (by intro c hc; simp at hc)]
  rw [split_char_no_sep h4]

theorem cand_blob_pipe_split : ∀ (l : List (List Char)), l ≠ [] →
    (∀ s ∈ l, ∀ c ∈ s, c ≠ '|') →
    split_char '|' ((l.map (fun s => s ++ ['|'])).flatten.dropLast) = l := by
  intro l
  induction l with
  | nil => intro h _; exact absurd rfl h
  | cons x rest ih =>
    intro _ hno
    have hx : ∀ c ∈ x, c ≠ '|' := hno x (List.mem_cons_self x rest)
    cases rest with
    | nil =>
      simp only [List.map_cons, List.map_nil, List.flatten_cons, List.flatten_nil,
        List.append_nil]
      rw [List.dropLast_append_of_ne_nil x (by simp)]
      simp only [List.dropLast_single, List.append_nil]
      exact split_char_no_sep hx
    | cons y t =>
      have hrest := ih (by simp)
        (fun s hs => hno s (List.mem_cons_of_mem x hs))
      simp only [List.map_cons, List.flatten_cons] at hrest ⊢
      have hR : (y ++ ['|']) ++ ((t.map (fun s => s ++ ['|'])).flatten) ≠ [] := by
        simp
      rw [List.dropLast_append_of_ne_nil (x ++ ['|']) hR]
      rw [List.append_assoc x ['|']]
      rw [List.singleton_append]
      rw [split_char_append _ hx]
      rw [hrest]

theorem cand_blob_split (sentences : List (List Char)) (hne : sentences ≠ []) :
    split_char '|' (cand_blob sentences) = sentences.map clean_line := by
  unfold cand_blob cand_cells
  have hmap : sentences.map (fun s => clean_line s ++ ['|'])
      = (sentences.map clean_line).map (fun s => s ++ ['|']) := by
    rw [List.map_map]
    rfl
  rw [hmap]
  apply cand_blob_pipe_split
  · simp [hne]
  · intro s hs c hc
    obtain ⟨s0, _, rfl⟩ := List.mem_map.mp hs
    intro hcb
    exact clean_line_no_bar s0 (hcb ▸ hc)

/-- C10: clean_line output never contains a newline, tab or pipe and has no
leading or trailing whitespace; consequently, for any raw persona, dialogue
and candidate text, the formatted line splits into the persona block and a
record whose tab fields are exactly the numbered cleaned first turn, the
cleaned second turn, the empty reward, and the candidate region, and the
candidate region splits at pipes into exactly the cleaned candidates. -/
theorem clean_line_sanitizes_format :
    (∀ s : List Char,
      '\n' ∉ clean_line s ∧ '\t' ∉ clean_line s ∧ '|' ∉ clean_line s ∧
      (∀ c, (clean_line s).head? = some c → py_isspace c = false) ∧
      (∀ c, (clean_line s).getLast? = some c → py_isspace c = false)) ∧
    (∀ (hlas : List (List Char)) (d1 d2 : List Char) (sentences : List (List Char)),
      sentences ≠ [] →
      format_fb_line hlas d1 d2 sentences [] =
        persona_block hlas ++ nat_chars (hlas.length + 1) ++ ' ' :: clean_line d1
          ++ '\t' :: clean_line d2 ++ '\t' :: '\t' :: (cand_blob sentences ++ ['\n']) ∧
      split_char '\t' (nat_chars (hlas.length + 1) ++ ' ' :: clean_line d1
          ++ '\t' :: clean_line d2 ++ '\t' :: '\t' :: (cand_blob sentences ++ ['\n']))
        = [nat_chars (hlas.length + 1) ++ ' ' :: clean_line d1, clean_line d2, [],
            cand_blob sentences ++ ['\n']] ∧
      split_char '|' (cand_blob sentences) = sentences.map clean_line) := by
  constructor
  · intro s
    exact ⟨clean_line_no_newline s, clean_line_no_tab s, clean_line_no_bar s,
      fun c hc => clean_line_head hc, fun c hc => clean_line_last hc⟩
  · intro hlas d1 d2 sentences hne
    exact ⟨format_fb_line_decomposition hlas d1 d2 sentences hne,
      record_line_tab_split hlas d1 d2 sentences,
      cand_blob_split sentences hne⟩

/-- Witness for C10 at concrete text: cleaning the raw line
spc a tab b bar c spc leaves no tab, its first character is not whitespace,
and a two-candidate list formats and splits back into the two cleaned
candidates. -/
theorem clean_line_sanitizes_witness :
    '\t' ∉ clean_line (" a\tb|c ".data) ∧
    (clean_line (" a\tb|c ".data)).head? = some 'a' ∧
    py_isspace 'a' = false ∧
    ((["p".data, "q\tr".data] : List (List Char)) ≠ []) ∧
    split_char '|' (cand_blob ["p".data, "q\tr".data])
      = (["p".data, "q\tr".data] : List (List Char)).map clean_line :=
  ⟨(clean_line_sanitizes_format.1 (" a\tb|c ".data)).2.1,
   by decide,
   (clean_line_sanitizes_format.1 (" a\tb|c ".data)).2.2.2.1 'a' (by decide),
   by decide,
   (clean_line_sanitizes_format.2 [] [] [] ["p".data, "q\tr".data] (by decide)).2.2⟩

end Aloha
